import Mathlib

/-!
Shallow embedding of `src/main.py` (a PyTorch Lightning MNIST training
script) and proofs of the specification claims about it.

Tensors are embedded as nested lists of rationals; machine floats are
modelled by exact rationals, which is adequate for the claims (all of
which are either structural or "exact up to floating-point tolerance").
External library primitives used by the script (`torch.nn.Linear`,
`F.relu`, `LambdaLR`, `random_split`, `sklearn.accuracy_score`,
`np.amax`, ...) are embedded by their documented semantics; transcendental
functions (`F.cross_entropy`, `F.softmax`) never have their values
constrained by any claim and are taken as parameters.
-/

/-- A one-dimensional tensor: a list of scalars. -/
abbrev Vec := List ℚ

/-- A two-dimensional tensor (matrix), as a list of rows. -/
abbrev Mat := List Vec

/-- A three-dimensional tensor, e.g. one MNIST image of shape (1, 28, 28):
channels, each a matrix of pixel rows. -/
abbrev Image3 := List Mat

/-- Flattening `x.view(x.size(0), -1)` applied to one image: concatenate all
channels and all rows into a single vector. -/
def flatten3 (img : Image3) : Vec :=
  (img.map List.flatten).flatten

/-- Shape predicate for one input image: shape (1, 28, 28). -/
def imgShape (img : Image3) : Prop :=
  img.length = 1 ∧ ∀ ch ∈ img, ch.length = 28 ∧ ∀ row ∈ ch, row.length = 28

instance (img : Image3) : Decidable (imgShape img) := by
  unfold imgShape; infer_instance

/-- Embedding of `torch.nn.Linear`: a weight matrix (`out_features` rows of
`in_features` entries each) and a bias vector of length `out_features`. -/
structure Linear where
  weight : Mat
  bias : Vec

/-- Construction `torch.nn.Linear(inF, outF)`: materializes an
`outF x inF` weight matrix and an `outF` bias vector from the given
initial entries (PyTorch draws them randomly; the claims hold for any). -/
def mkLinear (inF outF : ℕ) (w : ℕ → ℕ → ℚ) (b : ℕ → ℚ) : Linear :=
  { weight := (List.range outF).map (fun i => (List.range inF).map (w i)),
    bias := (List.range outF).map b }

/-- Applying a linear layer to an input vector: each output coordinate is
the dot product of the corresponding weight row with the input, plus bias. -/
def Linear.app (l : Linear) (x : Vec) : Vec :=
  List.zipWith (fun row bi => (List.zipWith (fun a c => a * c) row x).sum + bi) l.weight l.bias

/-- `F.relu` applied elementwise to a vector. -/
def relu (x : Vec) : Vec := x.map (fun a => max a 0)

/-- Embedding of the `LitModel` Lightning module state built by
`LitModel.__init__`: the hyperparameters and the three linear layers.
(The source assigns `self.linear = linear_1` and then immediately
overwrites it with `self.linear = linear_2`; the single surviving
`linear` field reflects that.) -/
structure LitModel where
  linear : ℕ
  learning_rate : ℚ
  decay_factor : ℚ
  layer_1 : Linear
  layer_2 : Linear
  layer_3 : Linear

/-- `LitModel.__init__(linear_1, linear_2, learning_rate, decay_factor)`:
builds `Linear(28*28, linear_1)`, `Linear(linear_1, linear_2)` and
`Linear(linear_2, 10)`; the weight/bias initial entries are parameters. -/
def LitModel.init (linear_1 linear_2 : ℕ) (learning_rate decay_factor : ℚ)
    (w1 : ℕ → ℕ → ℚ) (b1 : ℕ → ℚ) (w2 : ℕ → ℕ → ℚ) (b2 : ℕ → ℚ)
    (w3 : ℕ → ℕ → ℚ) (b3 : ℕ → ℚ) : LitModel :=
  { linear := linear_2,
    learning_rate := learning_rate,
    decay_factor := decay_factor,
    layer_1 := mkLinear (28 * 28) linear_1 w1 b1,
    layer_2 := mkLinear linear_1 linear_2 w2 b2,
    layer_3 := mkLinear linear_2 10 w3 b3 }

/-- `LitModel.forward`: flatten each image of the batch, then
`layer_1`, `relu`, `layer_2`, `relu`, `layer_3`. -/
def LitModel.forward (m : LitModel) (x : List Image3) : Mat :=
  x.map (fun img =>
    m.layer_3.app (relu (m.layer_2.app (relu (m.layer_1.app (flatten3 img))))))

lemma mkLinear_weight_length (inF outF : ℕ) (w : ℕ → ℕ → ℚ) (b : ℕ → ℚ) :
    (mkLinear inF outF w b).weight.length = outF := by
  simp [mkLinear]

lemma mkLinear_bias_length (inF outF : ℕ) (w : ℕ → ℕ → ℚ) (b : ℕ → ℚ) :
    (mkLinear inF outF w b).bias.length = outF := by
  simp [mkLinear]

lemma mkLinear_weight_row_length (inF outF : ℕ) (w : ℕ → ℕ → ℚ) (b : ℕ → ℚ) :
    ∀ row ∈ (mkLinear inF outF w b).weight, row.length = inF := by
  intro row hrow
  simp only [mkLinear, List.mem_map] at hrow
  obtain ⟨i, _, hi⟩ := hrow
  simp [← hi]

lemma Linear.app_length (l : Linear) (x : Vec) :
    (l.app x).length = min l.weight.length l.bias.length := by
  simp [Linear.app]

lemma mkLinear_app_length (inF outF : ℕ) (w : ℕ → ℕ → ℚ) (b : ℕ → ℚ) (x : Vec) :
    ((mkLinear inF outF w b).app x).length = outF := by
  simp [Linear.app_length, mkLinear_weight_length, mkLinear_bias_length]

lemma relu_length (x : Vec) : (relu x).length = x.length := by
  simp [relu]

lemma flatten3_length_of_shape (img : Image3) (h : imgShape img) :
    (flatten3 img).length = 784 := by
  obtain ⟨h1, h2⟩ := h
  match img, h1 with
  | [ch], _ =>
    obtain ⟨hch, hrow⟩ := h2 ch (by simp)
    simp only [flatten3, List.map_cons, List.map_nil, List.flatten_cons,
      List.flatten_nil, List.append_nil]
    rw [List.length_flatten]
    have : ch.map List.length = List.replicate 28 28 := by
      refine List.eq_replicate_iff.mpr ⟨by simp [hch], ?_⟩
      intro a ha
      simp only [List.mem_map] at ha
      obtain ⟨row, hr, hra⟩ := ha
      rw [← hra]; exact hrow row hr
    rw [this]; simp

/-- Claim C1: for every valid configuration (positive hidden widths
`linear_1`, `linear_2`) and any weight initialization, `LitModel.__init__`
succeeds, producing layers of dimensions 784→linear_1, linear_1→linear_2,
linear_2→10, and `forward` on a batch of N images of shape (1, 28, 28)
flattens each image to a 784-vector, applies layer 1 then ReLU, layer 2
then ReLU, then the final projection, returning a tensor of shape (N, 10). -/
theorem claim_C1_forward_shape (linear_1 linear_2 : ℕ)
    (hpos1 : 0 < linear_1) (hpos2 : 0 < linear_2)
    (lr df : ℚ) (w1 : ℕ → ℕ → ℚ) (b1 : ℕ → ℚ) (w2 : ℕ → ℕ → ℚ) (b2 : ℕ → ℚ)
    (w3 : ℕ → ℕ → ℚ) (b3 : ℕ → ℚ) (x : List Image3)
    (hx : ∀ img ∈ x, imgShape img) :
    ((LitModel.init linear_1 linear_2 lr df w1 b1 w2 b2 w3 b3).forward x).length
      = x.length ∧
    (∀ img ∈ x, (flatten3 img).length = 784) ∧
    (LitModel.init linear_1 linear_2 lr df w1 b1 w2 b2 w3 b3).layer_1.weight.length
      = linear_1 ∧
    (∀ row ∈ (LitModel.init linear_1 linear_2 lr df w1 b1 w2 b2 w3 b3).layer_1.weight,
      row.length = 784) ∧
    (LitModel.init linear_1 linear_2 lr df w1 b1 w2 b2 w3 b3).layer_2.weight.length
      = linear_2 ∧
    (∀ row ∈ (LitModel.init linear_1 linear_2 lr df w1 b1 w2 b2 w3 b3).layer_2.weight,
      row.length = linear_1) ∧
    (LitModel.init linear_1 linear_2 lr df w1 b1 w2 b2 w3 b3).layer_3.weight.length
      = 10 ∧
    (∀ row ∈ (LitModel.init linear_1 linear_2 lr df w1 b1 w2 b2 w3 b3).layer_3.weight,
      row.length = linear_2) ∧
    ((LitModel.init linear_1 linear_2 lr df w1 b1 w2 b2 w3 b3).forward x
      = x.map (fun img =>
          (LitModel.init linear_1 linear_2 lr df w1 b1 w2 b2 w3 b3).layer_3.app
            (relu ((LitModel.init linear_1 linear_2 lr df w1 b1 w2 b2 w3 b3).layer_2.app
              (relu ((LitModel.init linear_1 linear_2 lr df w1 b1 w2 b2 w3 b3).layer_1.app
                (flatten3 img))))))) ∧
    ∀ out ∈ (LitModel.init linear_1 linear_2 lr df w1 b1 w2 b2 w3 b3).forward x,
      out.length = 10 := by
  refine ⟨by simp [LitModel.forward], fun img h => flatten3_length_of_shape img (hx img h),
    ?_, ?_, ?_, ?_, ?_, ?_, rfl, ?_⟩
  · simp [LitModel.init, mkLinear_weight_length]
  · intro row hrow
    exact mkLinear_weight_row_length _ _ _ _ row hrow
  · simp [LitModel.init, mkLinear_weight_length]
  · intro row hrow
    exact mkLinear_weight_row_length _ _ _ _ row hrow
  · simp [LitModel.init, mkLinear_weight_length]
  · intro row hrow
    exact mkLinear_weight_row_length _ _ _ _ row hrow
  · intro out hout
    simp only [LitModel.forward, List.mem_map] at hout
    obtain ⟨img, _, himg⟩ := hout
    rw [← himg]
    simp [LitModel.init, mkLinear_app_length]

/-- A concrete all-zero MNIST-shaped image used by witnesses. -/
def img0 : Image3 := [List.replicate 28 (List.replicate 28 (0 : ℚ))]

/-- A concrete model instance used by witnesses. -/
def testModel : LitModel :=
  LitModel.init 1 1 1 1 (fun _ _ => 0) (fun _ => 0) (fun _ _ => 0) (fun _ => 0)
    (fun _ _ => 0) (fun _ => 0)

theorem claim_C1_forward_shape_witness :
    (testModel.forward [img0]).length = ([img0] : List Image3).length :=
  (claim_C1_forward_shape 1 1 (by decide) (by decide) 1 1
    (fun _ _ => 0) (fun _ => 0) (fun _ _ => 0) (fun _ => 0) (fun _ _ => 0) (fun _ => 0)
    [img0] (by intro img h; simp only [List.mem_singleton] at h; subst h; decide)).1

/-- Embedding of `torch.optim.lr_scheduler.LambdaLR`: the learning rate at a
given epoch is the optimizer base learning rate multiplied by the user
lambda evaluated at the epoch index. -/
def LambdaLR_lr (base_lr : ℚ) (lam : ℕ → ℚ) (epoch : ℕ) : ℚ :=
  base_lr * lam epoch

/-- `LitModel.configure_optimizers`: wraps the optimizer learning rate in a
`LambdaLR` with `lambda epoch: self.decay_factor ** epoch`. This function
gives the resulting learning rate used in a given epoch. -/
def LitModel.configure_optimizers_lr (m : LitModel) (epoch : ℕ) : ℚ :=
  LambdaLR_lr m.learning_rate (fun e => m.decay_factor ^ e) epoch

/-- Claim C2: for every epoch index e, the learning rate used in epoch e
equals `learning_rate * decay_factor ^ e` (exponential decay); exact in the
rational model, hence exact up to floating-point tolerance in the code. -/
theorem claim_C2_lr_schedule (m : LitModel) (e : ℕ) :
    m.configure_optimizers_lr e = m.learning_rate * m.decay_factor ^ e := rfl

/-- Embedding of `sklearn.metrics.accuracy_score` on integer label arrays:
the fraction of positions where the two arrays agree. -/
def accuracy_score (y_true y_pred : List ℕ) : ℚ :=
  (List.zipWith (fun a b => if a = b then (1 : ℚ) else 0) y_true y_pred).sum
    / (y_true.length : ℚ)

lemma accuracy_score_self_sum (t : List ℕ) :
    (List.zipWith (fun a b => if a = b then (1 : ℚ) else 0) t t).sum
      = (t.length : ℚ) := by
  induction t with
  | nil => simp
  | cons x xs ih => simp [ih]; ring

lemma accuracy_score_disjoint_sum (t p : List ℕ)
    (h : ∀ i, i < t.length → t.getD i 0 ≠ p.getD i 0) :
    (List.zipWith (fun a b => if a = b then (1 : ℚ) else 0) t p).sum = 0 := by
  induction t generalizing p with
  | nil => simp
  | cons x xs ih =>
    cases p with
    | nil => simp
    | cons q qs =>
      have h0 : x ≠ q := by
        have := h 0 (by simp)
        simpa using this
      have htail : ∀ i, i < xs.length → xs.getD i 0 ≠ qs.getD i 0 := by
        intro i hi
        have := h (i + 1) (by simpa using Nat.succ_lt_succ hi)
        simpa using this
      simp [h0, ih qs htail]

/-- Claim C7: for non-empty equal-length label arrays, `accuracy_score`
returns 1 on identical arrays, and 0 when no position matches. -/
theorem claim_C7_accuracy_extremes (t p : List ℕ)
    (hne : t ≠ []) (hlen : t.length = p.length) :
    accuracy_score t t = 1 ∧
    ((∀ i, i < t.length → t.getD i 0 ≠ p.getD i 0) → accuracy_score t p = 0) := by
  have hl : (t.length : ℚ) ≠ 0 :=
    Nat.cast_ne_zero.mpr (Nat.pos_iff_ne_zero.mp (List.length_pos.mpr hne))
  constructor
  · rw [accuracy_score, accuracy_score_self_sum]
    exact div_self hl
  · intro h
    rw [accuracy_score, accuracy_score_disjoint_sum t p h, zero_div]

theorem claim_C7_accuracy_extremes_witness :
    accuracy_score [1, 2] [1, 2] = 1 :=
  (claim_C7_accuracy_extremes [1, 2] [3, 4] (by decide) (by decide)).1

/-- Embedding of `torch.utils.data.random_split(dataset, [55000, 5000])` at
the level of dataset indices: a random permutation `perm` of the indices is
drawn, the first split is its first 55000 entries and the second split the
next 5000. -/
def random_split (perm : List ℕ) : List ℕ × List ℕ :=
  (perm.take 55000, (perm.drop 55000).take 5000)

/-- `MNISTDataModule.setup` in the `"fit"` stage: loads the 60000-example
training set and splits it `random_split(mnist_train, [55000, 5000])` into
`mnist_train` and `mnist_val`, here represented by their index sets. -/
def MNISTDataModule.setup_fit (perm : List ℕ) : List ℕ × List ℕ :=
  random_split perm

/-- Claim C3: after `setup` in the fit stage, for any permutation of the
60000 training indices, the train and validation splits have sizes exactly
55000 and 5000, are disjoint, and together cover all 60000 examples. -/
theorem claim_C3_split_partition (perm : List ℕ)
    (hperm : perm.Perm (List.range 60000)) :
    (MNISTDataModule.setup_fit perm).1.length = 55000 ∧
    (MNISTDataModule.setup_fit perm).2.length = 5000 ∧
    (∀ i, i ∈ (MNISTDataModule.setup_fit perm).1 →
      i ∉ (MNISTDataModule.setup_fit perm).2) ∧
    (∀ i, i < 60000 → i ∈ (MNISTDataModule.setup_fit perm).1 ∨
      i ∈ (MNISTDataModule.setup_fit perm).2) := by
  have hlen : perm.length = 60000 := by
    simpa using hperm.length_eq
  have hnodup : perm.Nodup := hperm.nodup_iff.mpr (List.nodup_range 60000)
  have hdroplen : (perm.drop 55000).length = 5000 := by
    simp [hlen]
  have hdrop_take : (perm.drop 55000).take 5000 = perm.drop 55000 :=
    List.take_of_length_le (by simp [hdroplen])
  refine ⟨by simp [MNISTDataModule.setup_fit, random_split, hlen], ?_, ?_, ?_⟩
  · simp [MNISTDataModule.setup_fit, random_split, hdroplen]
  · intro i hmem hmem2
    have hdisj : List.Disjoint (perm.take 55000) (perm.drop 55000) :=
      List.disjoint_take_drop hnodup (le_refl 55000)
    simp only [MNISTDataModule.setup_fit, random_split] at hmem hmem2
    rw [hdrop_take] at hmem2
    exact hdisj hmem hmem2
  · intro i hi
    have hmem : i ∈ perm := hperm.mem_iff.mpr (List.mem_range.mpr hi)
    rw [← List.take_append_drop 55000 perm] at hmem
    simp only [MNISTDataModule.setup_fit, random_split, hdrop_take]
    exact List.mem_append.mp hmem

theorem claim_C3_split_partition_witness :
    (MNISTDataModule.setup_fit (List.range 60000)).1.length = 55000 ∧
    (MNISTDataModule.setup_fit (List.range 60000)).2.length = 5000 :=
  ⟨(claim_C3_split_partition (List.range 60000) (List.Perm.refl _)).1,
   (claim_C3_split_partition (List.range 60000) (List.Perm.refl _)).2.1⟩

/-- The mean of a numpy array, `arr.mean()`: sum divided by length. -/
def npMean (l : List ℚ) : ℚ := l.sum / (l.length : ℚ)

/-- First index of the maximum entry, continuing with the running best:
helper for `argmax`. -/
def argmaxAux : List ℚ → ℕ → ℕ → ℚ → ℕ
  | [], _, best, _ => best
  | v :: vs, i, best, bv =>
    if bv < v then argmaxAux vs (i + 1) i v else argmaxAux vs (i + 1) best bv

/-- `tensor.argmax(axis=1)` applied to one row: index of the first maximal
entry (0 on an empty row). -/
def argmax : Vec → ℕ
  | [] => 0
  | v :: vs => argmaxAux vs 1 0 v

/-- A per-batch result record returned by `training_step` / `test_step`:
the scalar loss and the raw true/predicted label arrays. -/
structure StepResult where
  loss : ℚ
  y_true : List ℕ
  y_pred : List ℕ

/-- The example-prediction record built by `validation_step`: one
denormalized image with a name and a textual description. -/
structure Prediction where
  img : Mat
  name : String
  description : String

/-- A per-batch result record returned by `validation_step`: as
`StepResult` plus the example prediction. -/
structure ValStepResult where
  loss : ℚ
  y_true : List ℕ
  y_pred : List ℕ
  predictions : Prediction

/-- An image artifact sent to the tracking service by
`validation_epoch_end`. -/
structure ValUpload where
  key : String
  img : Mat
  name : String
  description : String

/-- The upload built from one collected prediction at epoch `e`:
key `val/preds/epoch_{e}`, with the prediction's image, name and
description. -/
def mkValUpload (e : ℕ) (d : Prediction) : ValUpload :=
  { key := "val/preds/epoch_" ++ toString e,
    img := d.img,
    name := d.name,
    description := d.description }

/-- `LitModel.training_epoch_end`: starting from empty numpy arrays,
`np.append` each record's loss, `y_true` and `y_pred`; then log
`train/epoch/loss` (mean of the loss array) and `train/epoch/acc`
(accuracy over the concatenated label arrays). Returns the list of
logged (key, value) pairs. -/
def training_epoch_end (outputs : List StepResult) : List (String × ℚ) :=
  let agg := outputs.foldl
    (fun (acc : List ℚ × List ℕ × List ℕ) r =>
      (acc.1 ++ [r.loss], acc.2.1 ++ r.y_true, acc.2.2 ++ r.y_pred))
    ([], [], [])
  [("train/epoch/loss", npMean agg.1),
   ("train/epoch/acc", accuracy_score agg.2.1 agg.2.2)]

/-- `LitModel.validation_epoch_end`: aggregates loss, labels and the
collected predictions with `np.append`; logs `val/loss` and `val/acc`;
when `current_epoch % 5 == 0` additionally uploads every collected
prediction under `val/preds/epoch_{current_epoch}`. Returns the logged
scalars and the uploads performed. -/
def validation_epoch_end (current_epoch : ℕ) (outputs : List ValStepResult) :
    List (String × ℚ) × List ValUpload :=
  let agg := outputs.foldl
    (fun (acc : List ℚ × List ℕ × List ℕ × List Prediction) r =>
      (acc.1 ++ [r.loss], acc.2.1 ++ r.y_true, acc.2.2.1 ++ r.y_pred,
       acc.2.2.2 ++ [r.predictions]))
    ([], [], [], [])
  ([("val/loss", npMean agg.1),
    ("val/acc", accuracy_score agg.2.1 agg.2.2.1)],
   if current_epoch % 5 = 0 then agg.2.2.2.map (mkValUpload current_epoch) else [])

/-- `LitModel.test_epoch_end`: same aggregation as `training_epoch_end`,
logging `test/loss` and `test/acc`. -/
def test_epoch_end (outputs : List StepResult) : List (String × ℚ) :=
  let agg := outputs.foldl
    (fun (acc : List ℚ × List ℕ × List ℕ) r =>
      (acc.1 ++ [r.loss], acc.2.1 ++ r.y_true, acc.2.2 ++ r.y_pred))
    ([], [], [])
  [("test/loss", npMean agg.1),
   ("test/acc", accuracy_score agg.2.1 agg.2.2)]

lemma step_foldl_append (outputs : List StepResult)
    (a : List ℚ) (b c : List ℕ) :
    outputs.foldl
      (fun (acc : List ℚ × List ℕ × List ℕ) r =>
        (acc.1 ++ [r.loss], acc.2.1 ++ r.y_true, acc.2.2 ++ r.y_pred))
      (a, b, c)
    = (a ++ outputs.map StepResult.loss,
       b ++ (outputs.map StepResult.y_true).flatten,
       c ++ (outputs.map StepResult.y_pred).flatten) := by
  induction outputs generalizing a b c with
  | nil => simp
  | cons r rs ih =>
    simp [List.foldl_cons, ih, List.append_assoc]

lemma val_foldl_append (outputs : List ValStepResult)
    (a : List ℚ) (b c : List ℕ) (d : List Prediction) :
    outputs.foldl
      (fun (acc : List ℚ × List ℕ × List ℕ × List Prediction) r =>
        (acc.1 ++ [r.loss], acc.2.1 ++ r.y_true, acc.2.2.1 ++ r.y_pred,
         acc.2.2.2 ++ [r.predictions]))
      (a, b, c, d)
    = (a ++ outputs.map ValStepResult.loss,
       b ++ (outputs.map ValStepResult.y_true).flatten,
       c ++ (outputs.map ValStepResult.y_pred).flatten,
       d ++ outputs.map ValStepResult.predictions) := by
  induction outputs generalizing a b c d with
  | nil => simp
  | cons r rs ih =>
    simp [List.foldl_cons, ih, List.append_assoc]

/-- Claim C4: at validation epoch end the logged scalars are always
`val/loss` and `val/acc`, and the collected example visualizations are
uploaded under `val/preds/epoch_{n}` exactly when the current epoch index
is divisible by 5 — in every other epoch the upload list is empty. -/
theorem claim_C4_val_uploads_every_5 (e : ℕ) (outputs : List ValStepResult) :
    (validation_epoch_end e outputs).2
      = (if e % 5 = 0
          then (outputs.map ValStepResult.predictions).map (mkValUpload e)
          else []) ∧
    (validation_epoch_end e outputs).1
      = [("val/loss", npMean (outputs.map ValStepResult.loss)),
         ("val/acc", accuracy_score ((outputs.map ValStepResult.y_true).flatten)
            ((outputs.map ValStepResult.y_pred).flatten))] := by
  constructor
  · simp [validation_epoch_end, val_foldl_append]
  · simp [validation_epoch_end, val_foldl_append]

/-- Claim C6: for non-empty per-batch output sequences, the training,
validation and test epoch-end hooks log the accuracy computed over the
concatenation of the per-batch label arrays and the mean of the per-batch
losses, under the respective keys. -/
theorem claim_C6_epoch_aggregation (t_out test_out : List StepResult)
    (v_out : List ValStepResult) (e : ℕ)
    (ht : t_out ≠ []) (hv : v_out ≠ []) (htest : test_out ≠ []) :
    training_epoch_end t_out
      = [("train/epoch/loss", npMean (t_out.map StepResult.loss)),
         ("train/epoch/acc", accuracy_score ((t_out.map StepResult.y_true).flatten)
            ((t_out.map StepResult.y_pred).flatten))] ∧
    (validation_epoch_end e v_out).1
      = [("val/loss", npMean (v_out.map ValStepResult.loss)),
         ("val/acc", accuracy_score ((v_out.map ValStepResult.y_true).flatten)
            ((v_out.map ValStepResult.y_pred).flatten))] ∧
    test_epoch_end test_out
      = [("test/loss", npMean (test_out.map StepResult.loss)),
         ("test/acc", accuracy_score ((test_out.map StepResult.y_true).flatten)
            ((test_out.map StepResult.y_pred).flatten))] := by
  refine ⟨?_, ?_, ?_⟩
  · simp [training_epoch_end, step_foldl_append]
  · simp [validation_epoch_end, val_foldl_append]
  · simp [test_epoch_end, step_foldl_append]

/-- A concrete step record for witnesses. -/
def r0 : StepResult := { loss := 0, y_true := [0], y_pred := [0] }

/-- A concrete validation step record for witnesses. -/
def v0 : ValStepResult :=
  { loss := 0, y_true := [0], y_pred := [0],
    predictions := { img := [], name := "p", description := "d" } }

theorem claim_C6_epoch_aggregation_witness :
    training_epoch_end [r0]
      = [("train/epoch/loss", npMean ([r0].map StepResult.loss)),
         ("train/epoch/acc", accuracy_score (([r0].map StepResult.y_true).flatten)
            (([r0].map StepResult.y_pred).flatten))] :=
  (claim_C6_epoch_aggregation [r0] [r0] [v0] 0 (by simp) (by simp) (by simp)).1

/-- `np.squeeze` applied to a tensor of shape (1, 28, 28): drops the
singleton channel axis, leaving the 28x28 matrix. -/
def squeeze3 (img : Image3) : Mat := img.flatten

/-- `img[img < 0] = 0`: clamp every negative pixel of a matrix to 0. -/
def clampNeg (img : Mat) : Mat :=
  img.map (List.map (fun v => if v < 0 then 0 else v))

/-- `np.amax` over a flat list: the maximum entry, by a left fold from the
head (numpy raises on an empty array; the claims only use it on non-empty
images, where this fold is its value). -/
def amax : List ℚ → ℚ
  | [] => 0
  | v :: vs => vs.foldl max v

/-- `np.amax` over a matrix: maximum over all entries. -/
def amax2 (img : Mat) : ℚ := amax img.flatten

/-- The per-image treatment of a misclassified example in `test_step`:
squeeze, clamp negatives to 0, then divide every pixel by the matrix
maximum (no guard against a zero maximum). -/
def normalizeMisclassified (img3 : Image3) : Mat :=
  let c := clampNeg (squeeze3 img3)
  c.map (List.map (fun v => v / amax2 c))

/-- An image artifact sent to the tracking service by `test_step`. -/
structure TestUpload where
  key : String
  img : Mat
  description : String

/-- The upload built in `test_step` for one misclassified example:
key `test/misclassified_images`, the normalized image, and the
`y_pred=..., y_true=...` description. -/
def mkTestUpload (img3 : Image3) (pred target : ℕ) : TestUpload :=
  { key := "test/misclassified_images",
    img := normalizeMisclassified img3,
    description := "y_pred=" ++ toString pred ++ ", y_true=" ++ toString target }

/-- `np.where(np.not_equal(y_true, y_pred))[0]`: the indices at which the
two label arrays disagree. -/
def misclassifiedIndices (y_true y_pred : List ℕ) : List ℕ :=
  (List.range y_true.length).filter (fun j => y_true.getD j 0 != y_pred.getD j 0)

/-- `LitModel.test_step`: forward the batch, take `argmax` per row as the
predictions, compute the loss (`F.cross_entropy`, transcendental, passed
as `lossFn`), and for every index where true and predicted labels differ
upload the normalized image with a `y_pred=..., y_true=...` description.
Returns the step record and the uploads performed. -/
def LitModel.test_step (m : LitModel) (lossFn : Mat → List ℕ → ℚ)
    (x : List Image3) (y : List ℕ) : StepResult × List TestUpload :=
  let y_hat := m.forward x
  let y_pred := y_hat.map argmax
  ({ loss := lossFn y_hat y, y_true := y, y_pred := y_pred },
   (misclassifiedIndices y y_pred).map
     (fun j => mkTestUpload (x.getD j []) (y_pred.getD j 0) (y.getD j 0)))

/-- Claim C5: in `test_step` the prediction array is the per-row argmax of
the forward pass; an index j of the batch is uploaded iff its true and
predicted labels differ, the uploads are exactly the misclassified
indices in order, and each upload carries the clamped-to-[0, max]
normalized image under `test/misclassified_images` with a description
giving the predicted and true labels. -/
theorem claim_C5_misclassified_uploads (m : LitModel) (lossFn : Mat → List ℕ → ℚ)
    (x : List Image3) (y : List ℕ) (hlen : x.length = y.length) :
    (m.test_step lossFn x y).1.y_pred = (m.forward x).map argmax ∧
    (m.test_step lossFn x y).2
      = (misclassifiedIndices y ((m.forward x).map argmax)).map
          (fun j => mkTestUpload (x.getD j [])
            (((m.forward x).map argmax).getD j 0) (y.getD j 0)) ∧
    (∀ j, j < y.length →
      (j ∈ misclassifiedIndices y ((m.forward x).map argmax) ↔
        y.getD j 0 ≠ ((m.forward x).map argmax).getD j 0)) ∧
    (∀ j pred target, (mkTestUpload (x.getD j []) pred target).key
        = "test/misclassified_images" ∧
      (mkTestUpload (x.getD j []) pred target).img
        = normalizeMisclassified (x.getD j []) ∧
      (mkTestUpload (x.getD j []) pred target).description
        = "y_pred=" ++ toString pred ++ ", y_true=" ++ toString target) := by
  refine ⟨rfl, rfl, ?_, fun j pred target => ⟨rfl, rfl, rfl⟩⟩
  intro j hj
  simp [misclassifiedIndices, List.mem_filter, List.mem_range, hj]

theorem claim_C5_misclassified_uploads_witness :
    (testModel.test_step (fun _ _ => 0) [img0] [0]).1.y_pred
      = (testModel.forward [img0]).map argmax :=
  (claim_C5_misclassified_uploads testModel (fun _ _ => 0) [img0] [0] rfl).1

lemma le_foldl_max (l : List ℚ) (a : ℚ) : a ≤ l.foldl max a := by
  induction l generalizing a with
  | nil => simp
  | cons v vs ih => exact le_trans (le_max_left a v) (ih (max a v))

lemma mem_le_foldl_max (l : List ℚ) (a v : ℚ) (h : v ∈ l) : v ≤ l.foldl max a := by
  induction l generalizing a with
  | nil => simp at h
  | cons u us ih =>
    rcases List.mem_cons.mp h with rfl | h2
    · exact le_trans (le_max_right a v) (le_foldl_max us (max a v))
    · exact ih (max a u) h2

lemma mem_le_amax (l : List ℚ) (v : ℚ) (h : v ∈ l) : v ≤ amax l := by
  cases l with
  | nil => simp at h
  | cons u us =>
    rcases List.mem_cons.mp h with rfl | h2
    · exact le_foldl_max us v
    · exact mem_le_foldl_max us u v h2

lemma foldl_max_zero (l : List ℚ) (h : ∀ v ∈ l, v = 0) : l.foldl max 0 = 0 := by
  induction l with
  | nil => rfl
  | cons w ws ih =>
    have hw : w = 0 := h w (by simp)
    subst hw
    simp only [List.foldl_cons, max_self]
    exact ih (fun v hv => h v (by simp [hv]))

lemma amax_of_all_eq_zero (l : List ℚ) (hne : l ≠ [])
    (h : ∀ v ∈ l, v = 0) : amax l = 0 := by
  cases l with
  | nil => exact absurd rfl hne
  | cons u us =>
    have hu : u = 0 := h u (by simp)
    subst hu
    simp only [amax]
    exact foldl_max_zero us (fun v hv => h v (List.mem_cons_of_mem 0 hv))

lemma clampNeg_mem_nonneg (img : Mat) (v : ℚ) (h : v ∈ (clampNeg img).flatten) :
    0 ≤ v := by
  simp only [clampNeg, List.mem_flatten, List.mem_map] at h
  obtain ⟨row, ⟨row0, _, hrow⟩, hv⟩ := h
  rw [← hrow] at hv
  simp only [List.mem_map] at hv
  obtain ⟨u, _, hu⟩ := hv
  rw [← hu]
  by_cases hlt : u < 0 <;> simp [hlt]
  exact le_of_not_lt hlt

/-- Claim C10: the misclassified-image normalization in `test_step` clamps
negatives to 0 and divides by the image maximum without a guard: when some
pixel is strictly positive every normalized pixel lies in [0, 1], but for
an image whose pixels are all non-positive the divisor `np.amax` is 0, so
the division is a division by zero. -/
theorem claim_C10_normalize_division (img : Mat) (hne : img.flatten ≠ []) :
    ((∃ v ∈ img.flatten, 0 < v) →
      ∀ u ∈ ((clampNeg img).map
        (List.map (fun v => v / amax2 (clampNeg img)))).flatten,
        0 ≤ u ∧ u ≤ 1) ∧
    ((∀ v ∈ img.flatten, v ≤ 0) → amax2 (clampNeg img) = 0) := by
  constructor
  · rintro ⟨v, hv, hvpos⟩ u hu
    have hvmem : v ∈ (clampNeg img).flatten := by
      simp only [List.mem_flatten] at hv ⊢
      obtain ⟨row, hrow, hvrow⟩ := hv
      refine ⟨row.map (fun w => if w < 0 then 0 else w), ?_, ?_⟩
      · simp only [clampNeg, List.mem_map]
        exact ⟨row, hrow, rfl⟩
      · simp only [List.mem_map]
        exact ⟨v, hvrow, by simp [not_lt_of_lt hvpos, asymm hvpos]⟩
    have hmaxpos : 0 < amax2 (clampNeg img) :=
      lt_of_lt_of_le hvpos (mem_le_amax _ v hvmem)
    simp only [List.mem_flatten, List.mem_map] at hu
    obtain ⟨row, ⟨row0, hrow0, hrow⟩, hurow⟩ := hu
    rw [← hrow] at hurow
    simp only [List.mem_map] at hurow
    obtain ⟨w, hw, hwu⟩ := hurow
    have hwmem : w ∈ (clampNeg img).flatten :=
      List.mem_flatten.mpr ⟨row0, hrow0, hw⟩
    have hw0 : 0 ≤ w := clampNeg_mem_nonneg img w hwmem
    have hwle : w ≤ amax2 (clampNeg img) := mem_le_amax _ w hwmem
    rw [← hwu]
    exact ⟨div_nonneg hw0 (le_of_lt hmaxpos), (div_le_one hmaxpos).mpr hwle⟩
  · intro hall
    have hcl : ∀ v ∈ (clampNeg img).flatten, v = 0 := by
      intro v hv
      simp only [clampNeg, List.mem_flatten, List.mem_map] at hv
      obtain ⟨row, ⟨row0, hrow0, hrow⟩, hvrow⟩ := hv
      rw [← hrow] at hvrow
      simp only [List.mem_map] at hvrow
      obtain ⟨u, hu, huv⟩ := hvrow
      have hu0 : u ≤ 0 := hall u (List.mem_flatten.mpr ⟨row0, hrow0, hu⟩)
      rw [← huv]
      by_cases hlt : u < 0
      · simp [hlt]
      · simp only [if_neg hlt]
        exact le_antisymm hu0 (le_of_not_lt hlt)
    have hclne : (clampNeg img).flatten ≠ [] := by
      intro hemp
      apply hne
      simp only [clampNeg] at hemp
      rw [List.flatten_eq_nil_iff] at hemp ⊢
      intro l hl
      have := hemp (l.map (fun v => if v < 0 then 0 else v))
        (List.mem_map.mpr ⟨l, hl, rfl⟩)
      simpa using this
    exact amax_of_all_eq_zero _ hclne hcl

theorem claim_C10_normalize_division_witness :
    amax2 (clampNeg [[(-1 : ℚ), 0]]) = 0 :=
  (claim_C10_normalize_division [[(-1 : ℚ), 0]] (by decide)).2 (by decide)

/-- `transforms.Normalize(mean, std)` applied to one pixel:
`(v - mean) / std`. The script instantiates the data module with
`normalization_vector = ((0.1307,), (0.3081,))`. -/
def normalizePixel (mean std v : ℚ) : ℚ := (v - mean) / std

/-- The per-pixel denormalization in `validation_step`:
`img.mul_(0.3081).add_(0.1307)`. -/
def denormalizePixel (v : ℚ) : ℚ := v * (3081 / 10000) + 1307 / 10000

/-- The data module transform applied to one (already squeezed) image,
with the script's normalization constants mean = 0.1307, std = 0.3081. -/
def dmTransform (img : Mat) : Mat :=
  img.map (List.map (normalizePixel (1307 / 10000) (3081 / 10000)))

/-- The example image built by `validation_step` from the first element
`x[0]` of the batch: squeeze the (1, 28, 28) tensor and denormalize every
pixel. -/
def validationStepImg (x0 : Image3) : Mat :=
  (squeeze3 x0).map (List.map denormalizePixel)

/-- Claim C8: the denormalization in `validation_step` (multiply by 0.3081,
add 0.1307) exactly inverts the data module normalization (subtract
0.1307, divide by 0.3081): pixelwise `denormalize (normalize v) = v`, and
the visualization built from a normalized single-channel image is the
original image. -/
theorem claim_C8_denormalize_inverse :
    (∀ v : ℚ, denormalizePixel (normalizePixel (1307 / 10000) (3081 / 10000) v) = v) ∧
    (∀ img : Mat, validationStepImg [dmTransform img] = img) := by
  have hpix : ∀ v : ℚ,
      denormalizePixel (normalizePixel (1307 / 10000) (3081 / 10000) v) = v := by
    intro v
    unfold denormalizePixel normalizePixel
    field_simp
  refine ⟨hpix, ?_⟩
  intro img
  unfold validationStepImg squeeze3 dmTransform
  simp only [List.flatten_cons, List.flatten_nil, List.append_nil, List.map_map]
  have hrow : ∀ row : Vec,
      List.map (denormalizePixel ∘ normalizePixel (1307 / 10000) (3081 / 10000)) row
        = row := by
    intro row
    have : denormalizePixel ∘ normalizePixel (1307 / 10000) (3081 / 10000) = id :=
      funext (fun v => hpix v)
    rw [this, List.map_id]
  have hcomp : (List.map denormalizePixel ∘
      List.map (normalizePixel (1307 / 10000) (3081 / 10000))) = fun row : Vec => row := by
    funext row
    simp only [Function.comp_apply, List.map_map]
    exact hrow row
  rw [hcomp]
  exact List.map_id' img

/-- The actions performed by `log_model_visualization`, in order. -/
inductive VisAction where
  | freezeModel
  | pullBatch
  | forwardPass
  | renderPNG (file : String)
  | uploadKey (key : String)
deriving DecidableEq

/-- Whether an action is the batch pull. -/
def VisAction.isPull : VisAction → Bool
  | VisAction.pullBatch => true
  | _ => false

/-- The fixed action sequence of `log_model_visualization`: freeze the
model, pull one batch with `iter(td).next()`, run `forward`, render the
`torchviz` graph as `model_vis` in PNG format, upload it under
`model/visualization`. -/
def visActions : List VisAction :=
  [VisAction.freezeModel, VisAction.pullBatch, VisAction.forwardPass,
   VisAction.renderPNG "model_vis", VisAction.uploadKey "model/visualization"]

/-- `log_model_visualization(lit_model, data_module)`: freezes the model,
takes the first batch of the train dataloader (`iter(td).next()`; raises
`StopIteration`, modelled as `none`, when the loader is empty), runs a
forward pass, and renders/uploads the computation graph rooted at
`y.mean()` — the mean over all entries of the (N, 10) output. Returns
the action trace and the graph root value. -/
def log_model_visualization (m : LitModel)
    (trainBatches : List (List Image3 × List ℕ)) :
    Option (List VisAction × ℚ) :=
  match trainBatches with
  | [] => none
  | b :: _ => some (visActions, npMean ((m.forward b.1).flatten))

/-- Claim C9: on a non-empty train dataloader the visualization routine
completes (returns a value); it pulls exactly one batch, the graph root is
the mean output of one forward pass over that first batch, the graph is
rendered as the PNG file `model_vis`, and the artifact is uploaded under
`model/visualization`. -/
theorem claim_C9_visualization (m : LitModel)
    (trainBatches : List (List Image3 × List ℕ)) (hne : trainBatches ≠ []) :
    (log_model_visualization m trainBatches).isSome = true ∧
    log_model_visualization m trainBatches
      = some (visActions, npMean ((m.forward (trainBatches.headD ([], [])).1).flatten)) ∧
    (visActions.filter VisAction.isPull).length = 1 ∧
    VisAction.renderPNG "model_vis" ∈ visActions ∧
    VisAction.uploadKey "model/visualization" ∈ visActions := by
  match trainBatches, hne with
  | b :: bs, _ =>
    refine ⟨rfl, rfl, rfl, ?_, ?_⟩
    · simp [visActions]
    · simp [visActions]

theorem claim_C9_visualization_witness :
    (log_model_visualization testModel [([img0], [0])]).isSome = true :=
  (claim_C9_visualization testModel [([img0], [0])] (by simp)).1
